import Mathlib

/-!
Shallow embedding of `framework.py` (a Mesos example framework scheduler).

The scheduler keeps a FIFO queue of `(executor_id, task_id)` descriptors,
greedily packs tasks into each resource offer (0.1 cpu / 32 mem per task),
and counts terminal status updates until the count reaches the initial
queue size, at which point it asks the driver to stop.

Numeric resource quantities (python floats) are modelled as exact
rationals; protobuf enum values are modelled by their integer codes.
Driver calls made by a handler are returned explicitly; a python
exception (the `KeyError` from the status-name dictionary) is modelled by
`Except.error` carrying the scheduler state at raise time.
-/

namespace Framework

/-! ### mesos_pb2 constants (integer enum codes from mesos.proto) -/

def TASK_STARTING : ℕ := 0
def TASK_RUNNING : ℕ := 1
def TASK_FINISHED : ℕ := 2
def TASK_FAILED : ℕ := 3
def TASK_KILLED : ℕ := 4
def TASK_LOST : ℕ := 5
def TASK_STAGING : ℕ := 6

def DRIVER_NOT_STARTED : ℕ := 1
def DRIVER_RUNNING : ℕ := 2
def DRIVER_ABORTED : ℕ := 3
def DRIVER_STOPPED : ℕ := 4

/-! ### Protobuf-shaped data -/

/-- A named scalar resource entry (`resource.name`, `resource.scalar.value`). -/
structure Resource where
  name : String
  scalarValue : ℚ
deriving DecidableEq

/-- The parts of a mesos `Offer` consulted by the scheduler. -/
structure Offer where
  offerId : String
  slaveId : String
  frameworkId : String
  resources : List Resource
deriving DecidableEq

/-- The parts of a mesos `TaskStatus` consulted by `status_update`:
the task id string and the integer state code. -/
structure TaskStatus where
  task_id : String
  state : ℕ
deriving DecidableEq

/-- The fields of the `TaskInfo` protobuf populated by `_build_task`. -/
structure TaskInfo where
  name : String
  task_id : String
  slave_id : String
  executor_id : String
  framework_id : String
  executor_command : String
  resources : List Resource
deriving DecidableEq

/-! ### Scheduler state (`ExampleScheduler.__init__`) -/

/-- `TASK_CPU = 0.1` in the source. -/
def TASK_CPU : ℚ := 1/10

/-- `TASK_MEM = 32` in the source. -/
def TASK_MEM : ℚ := 32

/-- Mutable fields of `ExampleScheduler`: the task queue (front of the
list is the front of the queue), the terminal counter and the task total. -/
structure ExampleScheduler where
  tasks : List (ℕ × ℕ)
  terminal : ℕ
  total_tasks : ℕ
deriving DecidableEq

/-- `__init__`: `terminal = 0`, `total_tasks = taskQueue.qsize()`. -/
def ExampleScheduler.init (taskQueue : List (ℕ × ℕ)) : ExampleScheduler :=
  { tasks := taskQueue, terminal := 0, total_tasks := taskQueue.length }

/-- Calls the handlers make on the external driver. -/
inductive DriverCall where
  | decline_offer (offerId : String)
  | launch_tasks (offerId : String) (tasks : List TaskInfo)
  | stop
deriving DecidableEq

/-! ### `_build_task` -/

/-- `os.path.basename`: the part after the last slash. -/
def basename (p : String) : String :=
  (p.splitOn "/").getLastD p

/-- `os.path.join(a, b)` for a relative second component. -/
def pathJoin (a b : String) : String :=
  if a = "" then b else a ++ "/" ++ b

/-- `os.path.join(os.path.basename(uri).split(".")[0], "bin/executor")`. -/
def executorCommand (uri : String) : String :=
  pathJoin (((basename uri).splitOn ".").headD "") "bin/executor"

/-- `_build_task(offer, executor_id, task_id, args)`: builds the
`TaskInfo` with id `"executor_id:task_id"` and the fixed resource grant. -/
def build_task (offer : Offer) (executor_id task_id : ℕ) (executor_uri : String) :
    TaskInfo :=
  { name := "Test Framework Task"
    task_id := Nat.repr executor_id ++ ":" ++ Nat.repr task_id
    slave_id := offer.slaveId
    executor_id := Nat.repr executor_id
    framework_id := offer.frameworkId
    executor_command := executorCommand executor_uri
    resources := [⟨"cpus", TASK_CPU⟩, ⟨"mem", TASK_MEM⟩] }

/-! ### `resource_offers` -/

/-- The resource-collection loop of `resource_offers`: scans the offer's
resource list, assigning `offer_cpu` from entries named `"cpus"` and
`offer_mem` from entries named `"mem"` (a later entry overwrites an
earlier one), starting from `(0, 0)`. -/
def collectResources (resources : List Resource) : ℚ × ℚ :=
  resources.foldl
    (fun acc r =>
      let acc1 := if r.name = "cpus" then (r.scalarValue, acc.2) else acc
      if r.name = "mem" then (acc1.1, r.scalarValue) else acc1)
    (0, 0)

/-- The `while` loop of `resource_offers`: while the remaining memory is
at least `TASK_MEM`, the remaining cpu at least `TASK_CPU` and the queue
nonempty, consume one descriptor and append the built task. Returns the
batch and the remaining queue. -/
def matchTasks (offer : Offer) (uri : String) :
    ℚ → ℚ → List (ℕ × ℕ) → List TaskInfo × List (ℕ × ℕ)
  | _, _, [] => ([], [])
  | offer_cpu, offer_mem, (executor_id, task_id) :: rest =>
    if TASK_MEM ≤ offer_mem ∧ TASK_CPU ≤ offer_cpu then
      let r := matchTasks offer uri (offer_cpu - TASK_CPU) (offer_mem - TASK_MEM) rest
      (build_task offer executor_id task_id uri :: r.1, r.2)
    else ([], (executor_id, task_id) :: rest)

/-- The body of the `for offer in offers` loop: decline if the queue is
empty, otherwise collect the offer's cpu/mem, run the matching loop, and
launch the batch if nonempty, else decline. -/
def processOffer (s : ExampleScheduler) (uri : String) (offer : Offer) :
    ExampleScheduler × List DriverCall :=
  if s.tasks.isEmpty then (s, [DriverCall.decline_offer offer.offerId])
  else
    let cm := collectResources offer.resources
    let r := matchTasks offer uri cm.1 cm.2 s.tasks
    if r.1.isEmpty then
      ({ s with tasks := r.2 }, [DriverCall.decline_offer offer.offerId])
    else
      ({ s with tasks := r.2 }, [DriverCall.launch_tasks offer.offerId r.1])

/-- `resource_offers(driver, offers)`: processes each offer in order
against the shared queue, accumulating the driver calls. -/
def resource_offers (s : ExampleScheduler) (uri : String) (offers : List Offer) :
    ExampleScheduler × List DriverCall :=
  offers.foldl
    (fun acc offer =>
      let r := processOffer acc.1 uri offer
      (r.1, acc.2 ++ r.2))
    (s, [])

/-! ### `status_update` -/

/-- The `statuses` dictionary mapping state codes to display names. -/
def statuses : List (ℕ × String) :=
  [(TASK_STAGING, "STAGING"), (TASK_STARTING, "STARTING"),
   (TASK_RUNNING, "RUNNING"), (TASK_FINISHED, "FINISHED"),
   (TASK_FAILED, "FAILED"), (TASK_KILLED, "KILLED"), (TASK_LOST, "LOST")]

/-- Dictionary lookup `statuses[state]`; `none` models the `KeyError`. -/
def statusName (state : ℕ) : Option String :=
  (statuses.find? (fun p => p.1 = state)).map (fun p => p.2)

/-- The terminal-state test of `status_update`: `FINISHED`, `FAILED`,
`KILLED` or `LOST`. -/
def isTerminalState (state : ℕ) : Bool :=
  state = TASK_FINISHED || state = TASK_FAILED ||
    state = TASK_KILLED || state = TASK_LOST

/-- `status_update(driver, taskStatus)`: looks up the state's display
name (raising `KeyError` for an unknown code, before the counter is
touched), increments `terminal` when the state is terminal, and calls
`driver.stop()` when `terminal == total_tasks` afterwards. -/
def status_update (s : ExampleScheduler) (u : TaskStatus) :
    Except (ExampleScheduler × String) (ExampleScheduler × List DriverCall) :=
  match statusName u.state with
  | none => .error (s, "KeyError")
  | some _ =>
    let s1 := if isTerminalState u.state then
        { s with terminal := s.terminal + 1 }
      else s
    if s1.terminal = s1.total_tasks then .ok (s1, [DriverCall.stop])
    else .ok (s1, [])

/-! ### Event sequences -/

/-- The driver events with scheduling logic: one `resource_offers`
callback (with its list of offers) or one `status_update` callback. -/
inductive Event where
  | offers (lst : List Offer)
  | status (u : TaskStatus)
deriving DecidableEq

/-- Dispatch one event to its handler. -/
def step (uri : String) (s : ExampleScheduler) :
    Event → Except (ExampleScheduler × String) (ExampleScheduler × List DriverCall)
  | .offers lst => .ok (resource_offers s uri lst)
  | .status u => status_update s u

/-- Run a sequence of events from a state, accumulating driver calls;
an exception aborts the run, carrying the state at raise time. -/
def run (uri : String) (s : ExampleScheduler) :
    List Event → Except (ExampleScheduler × String) (ExampleScheduler × List DriverCall)
  | [] => .ok (s, [])
  | e :: es =>
    match step uri s e with
    | .error err => .error err
    | .ok (s1, c1) =>
      match run uri s1 es with
      | .error err => .error err
      | .ok (s2, c2) => .ok (s2, c1 ++ c2)

/-- All tasks contained in `launch_tasks` calls, in order. -/
def launchedTasks (calls : List DriverCall) : List TaskInfo :=
  calls.foldr
    (fun c acc =>
      match c with
      | .launch_tasks _ b => b ++ acc
      | _ => acc)
    []

/-- The number of status-update events carrying a terminal state. -/
def countTerminal (es : List Event) : ℕ :=
  (es.filter (fun e =>
    match e with
    | .status u => isTerminalState u.state
    | .offers _ => false)).length

/-! ### `__main__` -/

/-- The startup queue: `for task in xrange(num_tasks): for executor in
xrange(num_executors): tasks.put((executor, task))`. -/
def mainQueue (num_tasks num_executors : ℕ) : List (ℕ × ℕ) :=
  (List.range num_tasks).flatMap
    (fun task => (List.range num_executors).map (fun executor => (executor, task)))

/-- `launch_driver`: `status` starts at 0 and is set to 1 exactly when
`driver.run() == mesos_pb2.DRIVER_STOPPED`. -/
def statusAfterRun (runResult : ℕ) : ℕ :=
  if runResult = DRIVER_STOPPED then 1 else 0

/-- Sum of the scalar values of a task's resource entries with a given name. -/
def taskResourceSum (t : TaskInfo) (nm : String) : ℚ :=
  ((t.resources.filter (fun r => r.name = nm)).map Resource.scalarValue).sum

/-- Sum of a named resource over a whole batch of tasks. -/
def batchResourceSum (b : List TaskInfo) (nm : String) : ℚ :=
  (b.map (fun t => taskResourceSum t nm)).sum

/-- Recursive description of the decimal digit string of a natural
number (used to reason about the `"%d:%d"` task ids). -/
def digitsRec (n : ℕ) : List Char :=
  if n < 10 then [Nat.digitChar n]
  else digitsRec (n / 10) ++ [Nat.digitChar (n % 10)]
decreasing_by exact Nat.div_lt_self (by omega) (by omega)

/-- The wire task id `"executorGroup:sequence"` determined by a queue
descriptor — the `task_id` stamped by `build_task`. -/
def taskKey (p : ℕ × ℕ) : String :=
  Nat.repr p.1 ++ ":" ++ Nat.repr p.2

/-! ### Helper lemmas about the matching loop -/

theorem TASK_CPU_pos : (0 : ℚ) < TASK_CPU := by norm_num [TASK_CPU]

theorem TASK_MEM_pos : (0 : ℚ) < TASK_MEM := by norm_num [TASK_MEM]

/-- The while loop consumes exactly
`min (floor (cpu / 0.1)) (floor (mem / 32)) (queue length)` descriptors. -/
theorem matchTasks_length (offer : Offer) (uri : String) :
    ∀ (q : List (ℕ × ℕ)) (cpu mem : ℚ),
      ((matchTasks offer uri cpu mem q).1).length =
        min (min (Int.toNat ⌊cpu / TASK_CPU⌋) (Int.toNat ⌊mem / TASK_MEM⌋))
          q.length := by
  intro q
  induction q with
  | nil => intro cpu mem; simp [matchTasks]
  | cons p rest ih =>
    intro cpu mem
    obtain ⟨e, t⟩ := p
    rw [matchTasks]
    split_ifs with h
    · have hc1 : (1 : ℚ) ≤ cpu / TASK_CPU := by
        rw [le_div_iff₀ TASK_CPU_pos, one_mul]; exact h.2
      have hm1 : (1 : ℚ) ≤ mem / TASK_MEM := by
        rw [le_div_iff₀ TASK_MEM_pos, one_mul]; exact h.1
      have hcf : 1 ≤ ⌊cpu / TASK_CPU⌋ := by
        rw [Int.le_floor]; exact_mod_cast hc1
      have hmf : 1 ≤ ⌊mem / TASK_MEM⌋ := by
        rw [Int.le_floor]; exact_mod_cast hm1
      have ec : (cpu - TASK_CPU) / TASK_CPU = cpu / TASK_CPU - 1 := by
        rw [sub_div, div_self (ne_of_gt TASK_CPU_pos)]
      have em : (mem - TASK_MEM) / TASK_MEM = mem / TASK_MEM - 1 := by
        rw [sub_div, div_self (ne_of_gt TASK_MEM_pos)]
      simp only [List.length_cons, ih, ec, em, Int.floor_sub_one]
      omega
    · rcases not_and_or.mp h with h1 | h1
      · have : mem / TASK_MEM < 1 := by
          rw [div_lt_one TASK_MEM_pos]; exact lt_of_not_le h1
        have hmf : ⌊mem / TASK_MEM⌋ < 1 := by
          rw [Int.floor_lt]; exact_mod_cast this
        simp only [List.length_nil, List.length_cons]
        omega
      · have : cpu / TASK_CPU < 1 := by
          rw [div_lt_one TASK_CPU_pos]; exact lt_of_not_le h1
        have hcf : ⌊cpu / TASK_CPU⌋ < 1 := by
          rw [Int.floor_lt]; exact_mod_cast this
        simp only [List.length_nil, List.length_cons]
        omega

/-- The while loop pops a queue head segment and builds exactly those
descriptors, in order. -/
theorem matchTasks_split (offer : Offer) (uri : String) :
    ∀ (q : List (ℕ × ℕ)) (cpu mem : ℚ),
      ∃ pre, q = pre ++ (matchTasks offer uri cpu mem q).2 ∧
        (matchTasks offer uri cpu mem q).1 =
          pre.map (fun p => build_task offer p.1 p.2 uri) := by
  intro q
  induction q with
  | nil => intro cpu mem; exact ⟨[], by simp [matchTasks]⟩
  | cons p rest ih =>
    intro cpu mem
    obtain ⟨e, t⟩ := p
    rw [matchTasks]
    split_ifs with h
    · obtain ⟨pre, hq, hb⟩ := ih (cpu - TASK_CPU) (mem - TASK_MEM)
      refine ⟨(e, t) :: pre, ?_, ?_⟩
      · simpa using hq
      · simpa using hb
    · exact ⟨[], by simp⟩

theorem launchedTasks_decline (o : String) :
    launchedTasks [DriverCall.decline_offer o] = [] := rfl

theorem launchedTasks_launch (o : String) (b : List TaskInfo) :
    launchedTasks [DriverCall.launch_tasks o b] = b := by
  simp [launchedTasks]

theorem processOffer_of_empty (s : ExampleScheduler) (uri : String) (offer : Offer)
    (h : s.tasks.isEmpty) :
    processOffer s uri offer = (s, [DriverCall.decline_offer offer.offerId]) := by
  simp [processOffer, h]

theorem processOffer_of_noBatch (s : ExampleScheduler) (uri : String) (offer : Offer)
    (h0 : ¬ s.tasks.isEmpty)
    (h1 : (matchTasks offer uri (collectResources offer.resources).1
      (collectResources offer.resources).2 s.tasks).1.isEmpty) :
    processOffer s uri offer =
      ({ s with tasks := (matchTasks offer uri (collectResources offer.resources).1
          (collectResources offer.resources).2 s.tasks).2 },
        [DriverCall.decline_offer offer.offerId]) := by
  simp only [processOffer, if_neg h0, if_pos h1]

theorem processOffer_of_batch (s : ExampleScheduler) (uri : String) (offer : Offer)
    (h0 : ¬ s.tasks.isEmpty)
    (h1 : ¬ (matchTasks offer uri (collectResources offer.resources).1
      (collectResources offer.resources).2 s.tasks).1.isEmpty) :
    processOffer s uri offer =
      ({ s with tasks := (matchTasks offer uri (collectResources offer.resources).1
          (collectResources offer.resources).2 s.tasks).2 },
        [DriverCall.launch_tasks offer.offerId
          (matchTasks offer uri (collectResources offer.resources).1
            (collectResources offer.resources).2 s.tasks).1]) := by
  simp only [processOffer, if_neg h0, if_neg h1]

/-- Processing one offer pops a head segment of the queue and launches
exactly the tasks built from it. -/
theorem processOffer_batch (s : ExampleScheduler) (uri : String) (offer : Offer) :
    ∃ pre, s.tasks = pre ++ (processOffer s uri offer).1.tasks ∧
      launchedTasks (processOffer s uri offer).2 =
        pre.map (fun p => build_task offer p.1 p.2 uri) := by
  by_cases h0 : s.tasks.isEmpty
  · rw [processOffer_of_empty s uri offer h0]
    exact ⟨[], by simp, by simp [launchedTasks]⟩
  · obtain ⟨pre, hq, hb⟩ := matchTasks_split offer uri s.tasks
      (collectResources offer.resources).1 (collectResources offer.resources).2
    by_cases h1 : (matchTasks offer uri (collectResources offer.resources).1
        (collectResources offer.resources).2 s.tasks).1.isEmpty
    · rw [processOffer_of_noBatch s uri offer h0 h1]
      rw [List.isEmpty_iff] at h1
      rw [h1] at hb
      have hpre : pre = [] := by
        cases pre with
        | nil => rfl
        | cons a l => simp at hb
      subst hpre
      exact ⟨[], by simpa using hq, by simp [launchedTasks]⟩
    · rw [processOffer_of_batch s uri offer h0 h1]
      exact ⟨pre, hq, by simpa [launchedTasks_launch] using hb⟩

/-- Per-offer batch size formula, shared by several results below. -/
theorem processOffer_batch_length (s : ExampleScheduler) (uri : String) (offer : Offer) :
    (launchedTasks (processOffer s uri offer).2).length =
      min (min (Int.toNat ⌊(collectResources offer.resources).1 / TASK_CPU⌋)
          (Int.toNat ⌊(collectResources offer.resources).2 / TASK_MEM⌋))
        s.tasks.length := by
  by_cases h0 : s.tasks.isEmpty
  · rw [processOffer_of_empty s uri offer h0]
    have he : s.tasks = [] := List.isEmpty_iff.mp h0
    simp [launchedTasks, he]
  · by_cases h1 : (matchTasks offer uri (collectResources offer.resources).1
        (collectResources offer.resources).2 s.tasks).1.isEmpty
    · rw [processOffer_of_noBatch s uri offer h0 h1]
      have hlen := matchTasks_length offer uri s.tasks
        (collectResources offer.resources).1 (collectResources offer.resources).2
      rw [List.isEmpty_iff] at h1
      rw [h1] at hlen
      simpa [launchedTasks] using hlen
    · rw [processOffer_of_batch s uri offer h0 h1]
      rw [launchedTasks_launch]
      exact matchTasks_length offer uri s.tasks _ _

theorem taskResourceSum_build_cpus (offer : Offer) (e t : ℕ) (uri : String) :
    taskResourceSum (build_task offer e t uri) "cpus" = TASK_CPU := by
  simp [taskResourceSum, build_task]

theorem taskResourceSum_build_mem (offer : Offer) (e t : ℕ) (uri : String) :
    taskResourceSum (build_task offer e t uri) "mem" = TASK_MEM := by
  simp [taskResourceSum, build_task]

theorem sum_const_over (c : ℚ) :
    ∀ (l : List (ℕ × ℕ)), ((l.map (fun _ => c)).sum) = l.length * c := by
  intro l
  induction l with
  | nil => simp
  | cons a l ih => simp [ih]; ring

theorem toNat_floor_le (x : ℚ) (hx : 0 ≤ x) : (Int.toNat ⌊x⌋ : ℚ) ≤ x := by
  have h1 : ((Int.toNat ⌊x⌋ : ℤ) : ℚ) = ((⌊x⌋ : ℤ) : ℚ) := by
    rw [Int.toNat_of_nonneg (Int.floor_nonneg.mpr hx)]
  calc (Int.toNat ⌊x⌋ : ℚ) = ((⌊x⌋ : ℤ) : ℚ) := by exact_mod_cast h1
    _ ≤ x := Int.floor_le x

/-- Claim C5: for every single offer processed by the matcher, the number
of tasks in the emitted batch equals
`min (floor (offerCpu / 0.1)) (floor (offerMem / 32)) (queue size at the
start of processing that offer)`, where `offerCpu` and `offerMem` are the
offer's scalar values for the resources named "cpus" and "mem" (zero when
absent). The python float arithmetic is modelled by exact rationals. -/
theorem claim_C5_greedy_maximality (s : ExampleScheduler) (uri : String) (offer : Offer) :
    (launchedTasks (processOffer s uri offer).2).length =
      min (min (Int.toNat ⌊(collectResources offer.resources).1 / TASK_CPU⌋)
          (Int.toNat ⌊(collectResources offer.resources).2 / TASK_MEM⌋))
        s.tasks.length :=
  processOffer_batch_length s uri offer

/-- Claim C6: for every offer and every batch the matcher produces against
it, the sum of the cpu grants of the batch's tasks (0.1 each) is at most
the offer's "cpus" scalar, and the sum of the mem grants (32 each) is at
most the offer's "mem" scalar (stated for nonnegative offered scalars;
the python float arithmetic is modelled by exact rationals). -/
theorem claim_C6_capacity_respect (s : ExampleScheduler) (uri : String) (offer : Offer)
    (hc : 0 ≤ (collectResources offer.resources).1)
    (hm : 0 ≤ (collectResources offer.resources).2) :
    batchResourceSum (launchedTasks (processOffer s uri offer).2) "cpus" ≤
        (collectResources offer.resources).1 ∧
      batchResourceSum (launchedTasks (processOffer s uri offer).2) "mem" ≤
        (collectResources offer.resources).2 := by
  obtain ⟨pre, hq, hb⟩ := processOffer_batch s uri offer
  have hlen := processOffer_batch_length s uri offer
  have hblen : (launchedTasks (processOffer s uri offer).2).length = pre.length := by
    rw [hb]; simp
  have hpre : pre.length ≤
      min (min (Int.toNat ⌊(collectResources offer.resources).1 / TASK_CPU⌋)
        (Int.toNat ⌊(collectResources offer.resources).2 / TASK_MEM⌋)) s.tasks.length := by
    rw [← hlen, hblen]
  have hsumc : batchResourceSum (launchedTasks (processOffer s uri offer).2) "cpus" =
      pre.length * TASK_CPU := by
    rw [hb, batchResourceSum, List.map_map]
    have hco : ((fun t => taskResourceSum t "cpus") ∘
        fun p : ℕ × ℕ => build_task offer p.1 p.2 uri) = fun _ => TASK_CPU := by
      funext p; exact taskResourceSum_build_cpus offer p.1 p.2 uri
    rw [hco, sum_const_over]
  have hsumm : batchResourceSum (launchedTasks (processOffer s uri offer).2) "mem" =
      pre.length * TASK_MEM := by
    rw [hb, batchResourceSum, List.map_map]
    have hco : ((fun t => taskResourceSum t "mem") ∘
        fun p : ℕ × ℕ => build_task offer p.1 p.2 uri) = fun _ => TASK_MEM := by
      funext p; exact taskResourceSum_build_mem offer p.1 p.2 uri
    rw [hco, sum_const_over]
  constructor
  · rw [hsumc]
    have h1 : (pre.length : ℚ) ≤ (collectResources offer.resources).1 / TASK_CPU := by
      have h2 : pre.length ≤ Int.toNat ⌊(collectResources offer.resources).1 / TASK_CPU⌋ := by
        omega
      calc (pre.length : ℚ)
          ≤ (Int.toNat ⌊(collectResources offer.resources).1 / TASK_CPU⌋ : ℚ) := by
            exact_mod_cast h2
        _ ≤ (collectResources offer.resources).1 / TASK_CPU :=
            toNat_floor_le _ (div_nonneg hc TASK_CPU_pos.le)
    have h3 := mul_le_mul_of_nonneg_right h1 TASK_CPU_pos.le
    rwa [div_mul_cancel₀ _ (ne_of_gt TASK_CPU_pos)] at h3
  · rw [hsumm]
    have h1 : (pre.length : ℚ) ≤ (collectResources offer.resources).2 / TASK_MEM := by
      have h2 : pre.length ≤ Int.toNat ⌊(collectResources offer.resources).2 / TASK_MEM⌋ := by
        omega
      calc (pre.length : ℚ)
          ≤ (Int.toNat ⌊(collectResources offer.resources).2 / TASK_MEM⌋ : ℚ) := by
            exact_mod_cast h2
        _ ≤ (collectResources offer.resources).2 / TASK_MEM :=
            toNat_floor_le _ (div_nonneg hm TASK_MEM_pos.le)
    have h3 := mul_le_mul_of_nonneg_right h1 TASK_MEM_pos.le
    rwa [div_mul_cancel₀ _ (ne_of_gt TASK_MEM_pos)] at h3

/-! ### Helper lemmas about `status_update` and `run` -/

theorem isTerminalState_cases (st : ℕ) (h : isTerminalState st = true) :
    st = 2 ∨ st = 3 ∨ st = 4 ∨ st = 5 := by
  simp only [isTerminalState, TASK_FINISHED, TASK_FAILED, TASK_KILLED, TASK_LOST,
    Bool.or_eq_true, decide_eq_true_eq] at h
  tauto

theorem statusName_of_terminal (st : ℕ) (h : isTerminalState st = true) :
    ∃ nm, statusName st = some nm := by
  rcases isTerminalState_cases st h with h1 | h1 | h1 | h1 <;> subst h1 <;>
    exact ⟨_, rfl⟩

theorem status_update_ok_terminal (s : ExampleScheduler) (u : TaskStatus)
    (h : isTerminalState u.state = true) :
    status_update s u =
      .ok ({ s with terminal := s.terminal + 1 },
        if s.terminal + 1 = s.total_tasks then [DriverCall.stop] else []) := by
  obtain ⟨nm, hnm⟩ := statusName_of_terminal u.state h
  simp only [status_update, hnm, h, if_true]
  split_ifs with hc <;> rfl

theorem status_update_ok_nonterminal (s : ExampleScheduler) (u : TaskStatus) (nm : String)
    (hn : statusName u.state = some nm) (h : isTerminalState u.state = false) :
    status_update s u =
      .ok (s, if s.terminal = s.total_tasks then [DriverCall.stop] else []) := by
  simp only [status_update, hn, h, if_false, Bool.false_eq_true]
  split_ifs with hc <;> rfl

theorem status_update_ok_inv (s : ExampleScheduler) (u : TaskStatus)
    (s1 : ExampleScheduler) (c1 : List DriverCall)
    (h : status_update s u = .ok (s1, c1)) :
    s1.tasks = s.tasks ∧ s1.total_tasks = s.total_tasks ∧
      s1.terminal = (if isTerminalState u.state then s.terminal + 1 else s.terminal) ∧
      c1 = (if s1.terminal = s1.total_tasks then [DriverCall.stop] else []) := by
  by_cases ht : isTerminalState u.state
  · rw [status_update_ok_terminal s u ht] at h
    obtain ⟨h1, h2⟩ := by
      have := h
      simp only [Except.ok.injEq, Prod.mk.injEq] at this
      exact this
    subst h1
    simp [ht]
    split_ifs at h2 <;> simp_all
  · cases hn : statusName u.state with
    | none => simp [status_update, hn] at h
    | some nm =>
      rw [status_update_ok_nonterminal s u nm hn (by simpa using ht)] at h
      obtain ⟨h1, h2⟩ := by
        have := h
        simp only [Except.ok.injEq, Prod.mk.injEq] at this
        exact this
      subst h1
      simp [ht]
      split_ifs at h2 <;> simp_all

theorem run_cons_ok (uri : String) (s : ExampleScheduler) (e : Event) (es : List Event)
    (s2 : ExampleScheduler) (cs : List DriverCall)
    (h : run uri s (e :: es) = .ok (s2, cs)) :
    ∃ s1 c1 c2, step uri s e = .ok (s1, c1) ∧ run uri s1 es = .ok (s2, c2) ∧
      cs = c1 ++ c2 := by
  rw [run] at h
  cases hstep : step uri s e with
  | error err => rw [hstep] at h; exact absurd h (by simp)
  | ok r =>
    obtain ⟨s1, c1⟩ := r
    rw [hstep] at h
    dsimp only at h
    cases hrun : run uri s1 es with
    | error err => rw [hrun] at h; exact absurd h (by simp)
    | ok r2 =>
      obtain ⟨s2a, c2⟩ := r2
      rw [hrun] at h
      simp only [Except.ok.injEq, Prod.mk.injEq] at h
      exact ⟨s1, c1, c2, rfl, by rw [hrun, h.1], h.2.symm⟩

theorem launchedTasks_append (c1 c2 : List DriverCall) :
    launchedTasks (c1 ++ c2) = launchedTasks c1 ++ launchedTasks c2 := by
  induction c1 with
  | nil => rfl
  | cons c rest ih =>
    cases c <;> simp [launchedTasks, ih] <;>
      simp [launchedTasks] at ih <;> simp [ih]

theorem resource_offers_foldl_acc (uri : String) :
    ∀ (offers : List Offer) (s : ExampleScheduler) (acc : List DriverCall),
      offers.foldl
        (fun acc offer =>
          let r := processOffer acc.1 uri offer
          (r.1, acc.2 ++ r.2))
        (s, acc) =
      ((resource_offers s uri offers).1, acc ++ (resource_offers s uri offers).2) := by
  intro offers
  induction offers with
  | nil => intro s acc; simp [resource_offers]
  | cons o os ih =>
    intro s acc
    rw [resource_offers, List.foldl_cons, List.foldl_cons]
    dsimp only
    rw [ih (processOffer s uri o).1 (acc ++ (processOffer s uri o).2),
      ih (processOffer s uri o).1 ([] ++ (processOffer s uri o).2)]
    simp

theorem resource_offers_cons (uri : String) (s : ExampleScheduler) (o : Offer)
    (os : List Offer) :
    resource_offers s uri (o :: os) =
      ((resource_offers (processOffer s uri o).1 uri os).1,
        (processOffer s uri o).2 ++
          (resource_offers (processOffer s uri o).1 uri os).2) := by
  rw [resource_offers, List.foldl_cons]
  dsimp only
  rw [resource_offers_foldl_acc uri os (processOffer s uri o).1]
  simp

theorem processOffer_counters (s : ExampleScheduler) (uri : String) (o : Offer) :
    (processOffer s uri o).1.terminal = s.terminal ∧
      (processOffer s uri o).1.total_tasks = s.total_tasks := by
  by_cases h0 : s.tasks.isEmpty
  · rw [processOffer_of_empty s uri o h0]; exact ⟨rfl, rfl⟩
  · by_cases h1 : (matchTasks o uri (collectResources o.resources).1
        (collectResources o.resources).2 s.tasks).1.isEmpty
    · rw [processOffer_of_noBatch s uri o h0 h1]; exact ⟨rfl, rfl⟩
    · rw [processOffer_of_batch s uri o h0 h1]; exact ⟨rfl, rfl⟩

theorem resource_offers_counters (uri : String) :
    ∀ (offers : List Offer) (s : ExampleScheduler),
      (resource_offers s uri offers).1.terminal = s.terminal ∧
        (resource_offers s uri offers).1.total_tasks = s.total_tasks := by
  intro offers
  induction offers with
  | nil => intro s; simp [resource_offers]
  | cons o os ih =>
    intro s
    rw [resource_offers_cons]
    dsimp only
    obtain ⟨h1, h2⟩ := ih (processOffer s uri o).1
    obtain ⟨h3, h4⟩ := processOffer_counters s uri o
    exact ⟨h1.trans h3, h2.trans h4⟩

/-- No `launch_tasks` call is ever emitted by `status_update`. -/
theorem status_update_no_launch (s : ExampleScheduler) (u : TaskStatus)
    (s1 : ExampleScheduler) (c1 : List DriverCall)
    (h : status_update s u = .ok (s1, c1)) : launchedTasks c1 = [] := by
  obtain ⟨-, -, -, hc⟩ := status_update_ok_inv s u s1 c1 h
  subst hc
  split_ifs <;> rfl

/-- The counter after a successful run equals the counter before plus the
number of terminal status updates, and `total_tasks` never changes. -/
theorem run_counters (uri : String) :
    ∀ (es : List Event) (s s2 : ExampleScheduler) (cs : List DriverCall),
      run uri s es = .ok (s2, cs) →
      s2.terminal = s.terminal + countTerminal es ∧
        s2.total_tasks = s.total_tasks := by
  intro es
  induction es with
  | nil =>
    intro s s2 cs h
    rw [run] at h
    simp only [Except.ok.injEq, Prod.mk.injEq] at h
    rw [← h.1]
    simp [countTerminal]
  | cons e es ih =>
    intro s s2 cs h
    obtain ⟨s1, c1, c2, hstep, hrun, -⟩ := run_cons_ok uri s e es s2 cs h
    obtain ⟨ht, htot⟩ := ih s1 s2 c2 hrun
    cases e with
    | offers lst =>
      rw [step] at hstep
      simp only [Except.ok.injEq] at hstep
      obtain ⟨h1, h2⟩ := resource_offers_counters uri lst s
      have hs1 : s1 = (resource_offers s uri lst).1 := by
        rw [hstep]
      constructor
      · rw [ht, hs1, h1]
        simp [countTerminal]
      · rw [htot, hs1, h2]
    | status u =>
      rw [step] at hstep
      obtain ⟨-, htot1, hterm1, -⟩ := status_update_ok_inv s u s1 c1 hstep
      constructor
      · rw [ht, hterm1]
        have hcons : countTerminal (Event.status u :: es) =
            (if isTerminalState u.state then 1 else 0) + countTerminal es := by
          by_cases hu : isTerminalState u.state <;>
            simp [countTerminal, List.filter, hu] <;> omega
        rw [hcons]
        split_ifs <;> omega
      · rw [htot, htot1]

/-- If the pending terminal updates exactly fill the gap to
`total_tasks`, a successful run of them issues `stop`. -/
theorem run_status_stop (uri : String) :
    ∀ (us : List TaskStatus) (s s2 : ExampleScheduler) (cs : List DriverCall),
      s.terminal + (us.filter (fun u => isTerminalState u.state)).length =
        s.total_tasks →
      0 < (us.filter (fun u => isTerminalState u.state)).length →
      run uri s (us.map Event.status) = .ok (s2, cs) →
      DriverCall.stop ∈ cs := by
  intro us
  induction us with
  | nil => intro s s2 cs h1 h2 h3; simp at h2
  | cons u us ih =>
    intro s s2 cs h1 h2 h3
    rw [List.map_cons] at h3
    obtain ⟨s1, c1, c2, hstep, hrun, hcs⟩ := run_cons_ok uri s _ _ s2 cs h3
    rw [step] at hstep
    obtain ⟨-, htot1, hterm1, hc1⟩ := status_update_ok_inv s u s1 c1 hstep
    subst hcs
    by_cases hu : isTerminalState u.state
    · simp only [List.filter_cons, hu, if_true, List.length_cons] at h1 h2
      rw [if_pos hu] at hterm1
      by_cases hz : (us.filter (fun u => isTerminalState u.state)).length = 0
      · have hstop : s1.terminal = s1.total_tasks := by omega
        rw [hc1, if_pos hstop]
        simp
      · have hmem := ih s1 s2 c2 (by omega) (by omega) hrun
        exact List.mem_append_right c1 hmem
    · simp only [List.filter_cons, hu, if_false, Bool.false_eq_true] at h1 h2
      rw [if_neg hu] at hterm1
      have hmem := ih s1 s2 c2 (by omega) (by omega) hrun
      exact List.mem_append_right c1 hmem

theorem status_update_ok_of_name (s : ExampleScheduler) (u : TaskStatus) (nm : String)
    (hnm : statusName u.state = some nm) : ∃ r, status_update s u = .ok r := by
  rw [status_update, hnm]
  dsimp only
  split_ifs <;> exact ⟨_, rfl⟩

theorem statusName_eq_none (st : ℕ)
    (h : ¬ (st = TASK_STAGING ∨ st = TASK_STARTING ∨ st = TASK_RUNNING ∨
      st = TASK_FINISHED ∨ st = TASK_FAILED ∨ st = TASK_KILLED ∨ st = TASK_LOST)) :
    statusName st = none := by
  push_neg at h
  rw [statusName]
  have hf : statuses.find? (fun p => p.1 = st) = none := by
    rw [List.find?_eq_none]
    intro p hp
    simp only [statuses, List.mem_cons, List.mem_singleton] at hp
    rcases hp with hp | hp | hp | hp | hp | hp | hp | hp
    all_goals first
      | (subst hp
         simp only [decide_eq_true_eq]
         omega)
      | simp at hp
  rw [hf]
  rfl

/-! ### Claim theorems for the Lifecycle Tracker -/

/-- Claim C1: for every status update whose state is terminal, if the
terminal counter equals `total_tasks` immediately after the increment
performed by that call, then `status_update` issues `driver.stop()`
within that same call; and for any sequence of status updates containing
exactly `total_tasks` terminal-state updates (starting from a zero
counter and a positive total), `stop()` is issued by the run. -/
theorem claim_C1_completion_stop :
    (∀ (s : ExampleScheduler) (u : TaskStatus),
      isTerminalState u.state = true → s.terminal + 1 = s.total_tasks →
      status_update s u =
        .ok ({ s with terminal := s.terminal + 1 }, [DriverCall.stop])) ∧
    (∀ (uri : String) (s : ExampleScheduler) (us : List TaskStatus)
        (s2 : ExampleScheduler) (cs : List DriverCall),
      s.terminal = 0 → 0 < s.total_tasks →
      (us.filter (fun u => isTerminalState u.state)).length = s.total_tasks →
      run uri s (us.map Event.status) = .ok (s2, cs) →
      DriverCall.stop ∈ cs) := by
  constructor
  · intro s u ht hc
    rw [status_update_ok_terminal s u ht, if_pos hc]
  · intro uri s us s2 cs h0 hpos hcount hrun
    exact run_status_stop uri us s s2 cs (by omega) (by omega) hrun

/-- Claim C2: every call to `status_update` with a terminal state
(`FINISHED`, `FAILED`, `KILLED`, `LOST`) increments the terminal counter
by exactly one, regardless of the task id carried by the update; with
`total_tasks = 2`, two `FINISHED` updates carrying the same task id bring
the counter to 2 and trigger completion (`stop`). -/
theorem claim_C2_terminal_increment :
    (∀ (s : ExampleScheduler) (u : TaskStatus), isTerminalState u.state = true →
      ∃ c, status_update s u = .ok ({ s with terminal := s.terminal + 1 }, c)) ∧
    run "u" (ExampleScheduler.init [(0, 0), (1, 0)])
        [.status ⟨"0:0", TASK_FINISHED⟩, .status ⟨"0:0", TASK_FINISHED⟩] =
      .ok ({ tasks := [(0, 0), (1, 0)], terminal := 2, total_tasks := 2 },
        [DriverCall.stop]) := by
  constructor
  · intro s u ht
    rw [status_update_ok_terminal s u ht]
    exact ⟨_, rfl⟩
  · rfl

/-- Claim C3 fails on the code: from a freshly constructed scheduler over
the one-task queue `[(0, 0)]`, two `FINISHED` updates are processed
without error and leave the counter at 2, strictly above
`total_tasks = 1`. -/
theorem claim_C3_counterexample :
    run "u" (ExampleScheduler.init [(0, 0)])
        [.status ⟨"0:0", TASK_FINISHED⟩, .status ⟨"0:0", TASK_FINISHED⟩] =
      .ok ({ tasks := [(0, 0)], terminal := 2, total_tasks := 1 },
        [DriverCall.stop]) ∧
    ¬ (({ tasks := [(0, 0)], terminal := 2, total_tasks := 1 } :
        ExampleScheduler).terminal ≤
      ({ tasks := [(0, 0)], terminal := 2, total_tasks := 1 } :
        ExampleScheduler).total_tasks) := by
  exact ⟨rfl, by decide⟩

/-- Claim C3 amended: after any successfully processed event sequence the
terminal counter equals the number of terminal status updates processed
(so `terminal ≤ total_tasks` holds whenever at most `total_tasks`
terminal updates were delivered, but duplicate terminal updates can push
it above), and a `status_update` call issues `stop` exactly when the
counter equals `total_tasks` at the end of that call. -/
theorem claim_C3_amended_invariant :
    (∀ (s : ExampleScheduler) (u : TaskStatus) (s1 : ExampleScheduler)
        (c : List DriverCall), status_update s u = .ok (s1, c) →
      (DriverCall.stop ∈ c ↔ s1.terminal = s1.total_tasks)) ∧
    (∀ (uri : String) (q : List (ℕ × ℕ)) (es : List Event)
        (s2 : ExampleScheduler) (cs : List DriverCall),
      run uri (ExampleScheduler.init q) es = .ok (s2, cs) →
      s2.terminal = countTerminal es ∧ s2.total_tasks = q.length ∧
        (countTerminal es ≤ q.length → s2.terminal ≤ s2.total_tasks)) := by
  constructor
  · intro s u s1 c h
    obtain ⟨-, -, -, hc⟩ := status_update_ok_inv s u s1 c h
    subst hc
    split_ifs with hcond
    · simp [hcond]
    · simp [hcond]
  · intro uri q es s2 cs h
    obtain ⟨h1, h2⟩ := run_counters uri es (ExampleScheduler.init q) s2 cs h
    refine ⟨by simpa [ExampleScheduler.init] using h1,
      by simpa [ExampleScheduler.init] using h2, ?_⟩
    intro hle
    simp only [ExampleScheduler.init] at h1 h2
    omega

/-- Claim C8 fails on the code: in a fresh run over two queued tasks (so
no task was ever dispatched), a `FINISHED` update for the never-dispatched
id `"7:7"` is processed without error but changes the terminal counter
from 0 to 1 — the update is not ignored. -/
theorem claim_C8_counterexample :
    status_update (ExampleScheduler.init [(0, 0), (0, 1)]) ⟨"7:7", TASK_FINISHED⟩ =
      .ok ({ tasks := [(0, 0), (0, 1)], terminal := 1, total_tasks := 2 }, []) ∧
    (1 : ℕ) ≠ (ExampleScheduler.init [(0, 0), (0, 1)]).terminal := by
  exact ⟨rfl, by decide⟩

/-- Claim C8 amended: for every status update whose state code is known,
the handler logs the update and completes without raising, and it
processes the update identically regardless of the task id (dispatched or
not); but the update is not ignored: a terminal state still increments
the terminal counter. -/
theorem claim_C8_amended_unknown_task :
    (∀ (s : ExampleScheduler) (u : TaskStatus) (nm : String),
      statusName u.state = some nm → ∃ r, status_update s u = .ok r) ∧
    (∀ (s : ExampleScheduler) (u1 u2 : TaskStatus), u1.state = u2.state →
      status_update s u1 = status_update s u2) ∧
    (∀ (s : ExampleScheduler) (u : TaskStatus), isTerminalState u.state = true →
      ∃ c, status_update s u = .ok ({ s with terminal := s.terminal + 1 }, c)) := by
  refine ⟨status_update_ok_of_name, ?_, ?_⟩
  · intro s u1 u2 h
    rw [status_update, status_update, h]
  · intro s u ht
    rw [status_update_ok_terminal s u ht]
    exact ⟨_, rfl⟩

/-- Claim C9: `status_update` completes without raising exactly for the
seven state codes `STAGING`, `STARTING`, `RUNNING`, `FINISHED`, `FAILED`,
`KILLED`, `LOST`; any other state code raises the dictionary lookup error
before the terminal counter is read or modified (the error carries the
unchanged scheduler state). -/
theorem claim_C9_status_totality :
    (∀ (s : ExampleScheduler) (u : TaskStatus),
      (u.state = TASK_STAGING ∨ u.state = TASK_STARTING ∨ u.state = TASK_RUNNING ∨
        u.state = TASK_FINISHED ∨ u.state = TASK_FAILED ∨ u.state = TASK_KILLED ∨
        u.state = TASK_LOST) → ∃ r, status_update s u = .ok r) ∧
    (∀ (s : ExampleScheduler) (u : TaskStatus),
      ¬ (u.state = TASK_STAGING ∨ u.state = TASK_STARTING ∨ u.state = TASK_RUNNING ∨
        u.state = TASK_FINISHED ∨ u.state = TASK_FAILED ∨ u.state = TASK_KILLED ∨
        u.state = TASK_LOST) →
      status_update s u = .error (s, "KeyError")) := by
  constructor
  · intro s u h
    rcases h with h | h | h | h | h | h | h <;>
      exact status_update_ok_of_name s u _ (by rw [h]; rfl)
  · intro s u h
    rw [status_update, statusName_eq_none u.state h]

/-- Witness for C1: a concrete terminal update completing a one-task run
issues `stop`, both per-call and in a run of one update. -/
theorem claim_C1_witness :
    (isTerminalState TASK_FINISHED = true ∧ 0 + 1 = 1 ∧
      status_update { tasks := [], terminal := 0, total_tasks := 1 }
          ⟨"0:0", TASK_FINISHED⟩ =
        .ok ({ tasks := [], terminal := 1, total_tasks := 1 },
          [DriverCall.stop])) ∧
    DriverCall.stop ∈ [DriverCall.stop] :=
  ⟨⟨rfl, rfl,
    claim_C1_completion_stop.1 { tasks := [], terminal := 0, total_tasks := 1 }
      ⟨"0:0", TASK_FINISHED⟩ rfl rfl⟩,
    claim_C1_completion_stop.2 "u" (ExampleScheduler.init [(0, 0)])
      [⟨"0:0", TASK_FINISHED⟩]
      { tasks := [(0, 0)], terminal := 1, total_tasks := 1 } [DriverCall.stop]
      rfl (by decide) (by decide) rfl⟩

/-- Witness for C2: a concrete `LOST` update increments the counter. -/
theorem claim_C2_witness :
    isTerminalState TASK_LOST = true ∧
    ∃ c, status_update { tasks := [(0, 0)], terminal := 0, total_tasks := 5 }
        ⟨"9:9", TASK_LOST⟩ =
      .ok ({ tasks := [(0, 0)], terminal := 1, total_tasks := 5 }, c) :=
  ⟨rfl, claim_C2_terminal_increment.1
    { tasks := [(0, 0)], terminal := 0, total_tasks := 5 } ⟨"9:9", TASK_LOST⟩ rfl⟩

/-- Witness for the amended C3, instantiated at a one-update run. -/
theorem claim_C3_amended_witness :
    (DriverCall.stop ∈ ([] : List DriverCall) ↔ 0 = 1) ∧
    ({ tasks := [(0, 0)], terminal := 0, total_tasks := 1 } :
        ExampleScheduler).terminal =
        countTerminal [.status ⟨"0:0", TASK_RUNNING⟩] ∧
      ({ tasks := [(0, 0)], terminal := 0, total_tasks := 1 } :
        ExampleScheduler).total_tasks = [((0 : ℕ), (0 : ℕ))].length ∧
      (countTerminal [.status ⟨"0:0", TASK_RUNNING⟩] ≤ [((0 : ℕ), (0 : ℕ))].length →
        ({ tasks := [(0, 0)], terminal := 0, total_tasks := 1 } :
          ExampleScheduler).terminal ≤
          ({ tasks := [(0, 0)], terminal := 0, total_tasks := 1 } :
            ExampleScheduler).total_tasks) :=
  ⟨claim_C3_amended_invariant.1 { tasks := [], terminal := 0, total_tasks := 1 }
      ⟨"0:0", TASK_RUNNING⟩ { tasks := [], terminal := 0, total_tasks := 1 } [] rfl,
    claim_C3_amended_invariant.2 "u" [(0, 0)] [.status ⟨"0:0", TASK_RUNNING⟩]
      { tasks := [(0, 0)], terminal := 0, total_tasks := 1 } [] rfl⟩

/-- Witness for the amended C8, instantiated at concrete updates with an
undispatched task id. -/
theorem claim_C8_amended_witness :
    (∃ r, status_update { tasks := [(0, 0)], terminal := 0, total_tasks := 1 }
      ⟨"7:7", TASK_RUNNING⟩ = .ok r) ∧
    status_update { tasks := [(0, 0)], terminal := 0, total_tasks := 1 }
        ⟨"7:7", TASK_FINISHED⟩ =
      status_update { tasks := [(0, 0)], terminal := 0, total_tasks := 1 }
        ⟨"8:8", TASK_FINISHED⟩ ∧
    ∃ c, status_update { tasks := [(0, 0)], terminal := 0, total_tasks := 1 }
        ⟨"7:7", TASK_FINISHED⟩ =
      .ok ({ tasks := [(0, 0)], terminal := 1, total_tasks := 1 }, c) :=
  ⟨claim_C8_amended_unknown_task.1
      { tasks := [(0, 0)], terminal := 0, total_tasks := 1 } ⟨"7:7", TASK_RUNNING⟩
      "RUNNING" rfl,
    claim_C8_amended_unknown_task.2.1
      { tasks := [(0, 0)], terminal := 0, total_tasks := 1 } ⟨"7:7", TASK_FINISHED⟩
      ⟨"8:8", TASK_FINISHED⟩ rfl,
    claim_C8_amended_unknown_task.2.2
      { tasks := [(0, 0)], terminal := 0, total_tasks := 1 } ⟨"7:7", TASK_FINISHED⟩
      rfl⟩

/-- Witness for C9: state code 1 (`RUNNING`) succeeds, state code 9 hits
the `KeyError` path and leaves the state untouched. -/
theorem claim_C9_witness :
    (∃ r, status_update { tasks := [], terminal := 3, total_tasks := 7 }
      ⟨"0:0", 1⟩ = .ok r) ∧
    status_update { tasks := [], terminal := 3, total_tasks := 7 } ⟨"0:0", 9⟩ =
      .error ({ tasks := [], terminal := 3, total_tasks := 7 }, "KeyError") :=
  ⟨claim_C9_status_totality.1 { tasks := [], terminal := 3, total_tasks := 7 }
      ⟨"0:0", 1⟩ (by decide),
    claim_C9_status_totality.2 { tasks := [], terminal := 3, total_tasks := 7 }
      ⟨"0:0", 9⟩ (by decide)⟩

/-! ### Driver exit status (`launch_driver`) -/

/-- Claim C4 names the intended behavior (exit 0 on clean stop, 1 on
abnormal stop); the code inverts it: `status` is set to 1 exactly when
`driver.run()` returns `DRIVER_STOPPED` (the clean-stop result) and stays
0 for every other (abnormal) result — and the script never passes
`status` to an exit call at all. -/
theorem claim_C4_exit_status_inverted :
    statusAfterRun DRIVER_STOPPED = 1 ∧ statusAfterRun DRIVER_ABORTED = 0 ∧
      ¬ statusAfterRun DRIVER_STOPPED = 0 := by
  exact ⟨rfl, rfl, by decide⟩

/-! ### Resource collection (C10) -/

theorem collectResources_no_cpus (rs : List Resource)
    (h : ∀ r ∈ rs, r.name ≠ "cpus") (acc : ℚ × ℚ) :
    (rs.foldl
      (fun acc r =>
        let acc1 := if r.name = "cpus" then (r.scalarValue, acc.2) else acc
        if r.name = "mem" then (acc1.1, r.scalarValue) else acc1)
      acc).1 = acc.1 := by
  induction rs generalizing acc with
  | nil => rfl
  | cons r rs ih =>
    rw [List.foldl_cons]
    have hr : r.name ≠ "cpus" := h r (by simp)
    have ih2 := ih (fun x hx => h x (by simp [hx]))
    rw [ih2]
    simp only [if_neg hr]
    split_ifs <;> rfl

theorem collectResources_no_mem (rs : List Resource)
    (h : ∀ r ∈ rs, r.name ≠ "mem") (acc : ℚ × ℚ) :
    (rs.foldl
      (fun acc r =>
        let acc1 := if r.name = "cpus" then (r.scalarValue, acc.2) else acc
        if r.name = "mem" then (acc1.1, r.scalarValue) else acc1)
      acc).2 = acc.2 := by
  induction rs generalizing acc with
  | nil => rfl
  | cons r rs ih =>
    rw [List.foldl_cons]
    have hr : r.name ≠ "mem" := h r (by simp)
    have ih2 := ih (fun x hx => h x (by simp [hx]))
    rw [ih2]
    simp only [if_neg hr]
    split_ifs <;> rfl

/-- Claim C10: when an offer's resource list has several entries named
"cpus" (resp. "mem"), the matcher's collected capacity is the scalar of
the last such entry in list order — not the sum of all entries and not
the first one. -/
theorem claim_C10_last_entry_wins :
    (∀ (rs1 rs2 : List Resource) (v : ℚ), (∀ r ∈ rs2, r.name ≠ "cpus") →
      (collectResources (rs1 ++ ⟨"cpus", v⟩ :: rs2)).1 = v) ∧
    (∀ (rs1 rs2 : List Resource) (v : ℚ), (∀ r ∈ rs2, r.name ≠ "mem") →
      (collectResources (rs1 ++ ⟨"mem", v⟩ :: rs2)).2 = v) ∧
    ((collectResources [⟨"cpus", 1⟩, ⟨"cpus", 2⟩]).1 = 2 ∧ (2 : ℚ) ≠ 1 + 2 ∧
      (2 : ℚ) ≠ 1) := by
  refine ⟨?_, ?_, by refine ⟨by decide, by norm_num, by norm_num⟩⟩
  · intro rs1 rs2 v h
    rw [collectResources, List.foldl_append, List.foldl_cons]
    exact collectResources_no_cpus rs2 h _
  · intro rs1 rs2 v h
    rw [collectResources, List.foldl_append, List.foldl_cons]
    exact collectResources_no_mem rs2 h _

/-- Witness for C10: a duplicate-entry offer evaluated concretely. -/
theorem claim_C10_witness :
    (collectResources ([⟨"mem", 64⟩] ++ ⟨"cpus", (1 : ℚ)⟩ :: [⟨"mem", 96⟩])).1 = 1 ∧
    (collectResources ([⟨"cpus", 2⟩] ++ ⟨"mem", (96 : ℚ)⟩ :: [⟨"cpus", 3⟩])).2 = 96 :=
  ⟨claim_C10_last_entry_wins.1 [⟨"mem", 64⟩] [⟨"mem", 96⟩] 1
      (by intro r hr; simp at hr; simp [hr]),
    claim_C10_last_entry_wins.2.1 [⟨"cpus", 2⟩] [⟨"cpus", 3⟩] 96
      (by intro r hr; simp at hr; simp [hr])⟩

/-! ### Decimal task ids are injective (toward C7) -/

theorem digitsRec_eq_lt (n : ℕ) (h : n < 10) : digitsRec n = [Nat.digitChar n] := by
  conv_lhs => rw [digitsRec]
  rw [if_pos h]

theorem digitsRec_eq_ge (n : ℕ) (h : ¬ n < 10) :
    digitsRec n = digitsRec (n / 10) ++ [Nat.digitChar (n % 10)] := by
  conv_lhs => rw [digitsRec]
  rw [if_neg h]

theorem toDigitsCore_acc (b : ℕ) :
    ∀ (fuel n : ℕ) (ds : List Char),
      Nat.toDigitsCore b fuel n ds = Nat.toDigitsCore b fuel n [] ++ ds := by
  intro fuel
  induction fuel with
  | zero => intro n ds; rfl
  | succ fuel ih =>
    intro n ds
    rw [Nat.toDigitsCore, Nat.toDigitsCore]
    by_cases h : n / b = 0
    · simp [h]
    · rw [if_neg h, if_neg h, ih (n / b) (Nat.digitChar (n % b) :: ds),
        ih (n / b) [Nat.digitChar (n % b)]]
      simp

theorem toDigitsCore_eq_digitsRec :
    ∀ (fuel n : ℕ), n < fuel → Nat.toDigitsCore 10 fuel n [] = digitsRec n := by
  intro fuel
  induction fuel with
  | zero => intro n h; omega
  | succ fuel ih =>
    intro n h
    rw [Nat.toDigitsCore]
    by_cases h0 : n / 10 = 0
    · have hn : n < 10 := by omega
      rw [if_pos h0, digitsRec_eq_lt n hn, Nat.mod_eq_of_lt hn]
    · have hn : ¬ n < 10 := by omega
      rw [if_neg h0, toDigitsCore_acc 10 fuel (n / 10) [Nat.digitChar (n % 10)],
        ih (n / 10) (by omega), digitsRec_eq_ge n hn]

theorem repr_eq_digitsRec (n : ℕ) : (Nat.repr n).data = digitsRec n := by
  show (Nat.toDigitsCore 10 (n + 1) n []).asString.data = digitsRec n
  have h := toDigitsCore_eq_digitsRec (n + 1) n (by omega)
  rw [List.asString]
  exact h

theorem digitsRec_ne_nil (n : ℕ) : digitsRec n ≠ [] := by
  rw [digitsRec]
  split_ifs <;> simp

theorem digitsRec_chars (n : ℕ) :
    ∀ c ∈ digitsRec n, ∃ k, k < 10 ∧ c = Nat.digitChar k := by
  induction n using Nat.strong_induction_on with
  | _ n ih =>
    rw [digitsRec]
    split_ifs with h
    · intro c hc; simp at hc; exact ⟨n, h, hc⟩
    · intro c hc
      rw [List.mem_append] at hc
      rcases hc with hc | hc
      · exact ih (n / 10) (Nat.div_lt_self (by omega) (by omega)) c hc
      · simp at hc; exact ⟨n % 10, Nat.mod_lt n (by omega), hc⟩

theorem digitChar_inj_lt : ∀ a < 10, ∀ b < 10,
    Nat.digitChar a = Nat.digitChar b → a = b := by decide

theorem digitChar_ne_colon : ∀ k < 10, Nat.digitChar k ≠ ':' := by decide

theorem colon_not_mem_digitsRec (n : ℕ) : ':' ∉ digitsRec n := by
  intro h
  obtain ⟨k, hk, he⟩ := digitsRec_chars n ':' h
  exact digitChar_ne_colon k hk he.symm

theorem digitsRec_inj (m : ℕ) : ∀ n, digitsRec m = digitsRec n → m = n := by
  induction m using Nat.strong_induction_on with
  | _ m ih =>
    intro n h
    by_cases hm : m < 10 <;> by_cases hn : n < 10
    · rw [digitsRec_eq_lt m hm, digitsRec_eq_lt n hn] at h
      simp at h
      exact digitChar_inj_lt m hm n hn h
    · rw [digitsRec_eq_lt m hm, digitsRec_eq_ge n hn] at h
      have hlen := congrArg List.length h
      simp only [List.length_singleton, List.length_append] at hlen
      have hpos := List.length_pos.mpr (digitsRec_ne_nil (n / 10))
      omega
    · rw [digitsRec_eq_ge m hm, digitsRec_eq_lt n hn] at h
      have hlen := congrArg List.length h
      simp only [List.length_singleton, List.length_append] at hlen
      have hpos := List.length_pos.mpr (digitsRec_ne_nil (m / 10))
      omega
    · rw [digitsRec_eq_ge m hm, digitsRec_eq_ge n hn] at h
      obtain ⟨h3, h4⟩ := List.append_inj' h (by simp)
      have h5 : m / 10 = n / 10 :=
        ih (m / 10) (Nat.div_lt_self (by omega) (by omega)) (n / 10) h3
      simp at h4
      have h6 : m % 10 = n % 10 :=
        digitChar_inj_lt _ (Nat.mod_lt m (by omega)) _ (Nat.mod_lt n (by omega)) h4
      omega

theorem nat_repr_inj (m n : ℕ) (h : Nat.repr m = Nat.repr n) : m = n := by
  have hd : (Nat.repr m).data = (Nat.repr n).data := by rw [h]
  rw [repr_eq_digitsRec, repr_eq_digitsRec] at hd
  exact digitsRec_inj m n hd

theorem colon_not_mem_repr (n : ℕ) : ':' ∉ (Nat.repr n).data := by
  rw [repr_eq_digitsRec]
  exact colon_not_mem_digitsRec n

theorem append_colon_inj (ch : Char) :
    ∀ (a c b d : List Char), ch ∉ a → ch ∉ c →
      a ++ ch :: b = c ++ ch :: d → a = c ∧ b = d := by
  intro a
  induction a with
  | nil =>
    intro c b d ha hc h
    cases c with
    | nil => simp at h; exact ⟨rfl, h⟩
    | cons y ys =>
      simp at h
      exact absurd (by rw [← h.1] at hc ⊢; exact List.mem_cons_self ch ys) hc
  | cons x xs ih =>
    intro c b d ha hc h
    cases c with
    | nil =>
      simp at h
      exact absurd (by rw [h.1] at ha ⊢; exact List.mem_cons_self ch xs) ha
    | cons y ys =>
      simp at h
      obtain ⟨h1, h2⟩ := h
      obtain ⟨h3, h4⟩ := ih ys b d (fun hx => ha (List.mem_cons_of_mem x hx))
        (fun hx => hc (List.mem_cons_of_mem y hx)) h2
      exact ⟨by rw [h1, h3], h4⟩

theorem taskKey_inj : Function.Injective taskKey := by
  intro p q h
  have hd := congrArg String.data h
  have hcolon : (":" : String).data = [':'] := rfl
  simp only [taskKey, String.data_append, hcolon, List.append_assoc,
    List.singleton_append] at hd
  obtain ⟨h1, h2⟩ := append_colon_inj ':' (Nat.repr p.1).data (Nat.repr q.1).data
    (Nat.repr p.2).data (Nat.repr q.2).data
    (colon_not_mem_repr p.1) (colon_not_mem_repr q.1) hd
  rw [repr_eq_digitsRec, repr_eq_digitsRec] at h1 h2
  have e1 := digitsRec_inj p.1 q.1 h1
  have e2 := digitsRec_inj p.2 q.2 h2
  exact Prod.ext e1 e2

/-! ### Task id uniqueness across a full run (C7) -/

theorem mainQueue_nodup (num_tasks num_executors : ℕ) :
    (mainQueue num_tasks num_executors).Nodup := by
  rw [mainQueue, List.nodup_flatMap]
  constructor
  · intro t ht
    exact List.Nodup.map (fun a b hab => by simpa using hab)
      (List.nodup_range num_executors)
  · refine (List.pairwise_lt_range num_tasks).imp ?_
    intro a b hab
    intro x hx hx2
    simp only [List.mem_map, List.mem_range] at hx hx2
    obtain ⟨e1, -, he1⟩ := hx
    obtain ⟨e2, -, he2⟩ := hx2
    rw [← he1] at he2
    have : a = b := by
      have := congrArg Prod.snd he2
      simpa using this.symm
    omega

theorem resource_offers_batch (uri : String) :
    ∀ (offers : List Offer) (s : ExampleScheduler),
      ∃ pre, s.tasks = pre ++ (resource_offers s uri offers).1.tasks ∧
        (launchedTasks (resource_offers s uri offers).2).map TaskInfo.task_id =
          pre.map taskKey := by
  intro offers
  induction offers with
  | nil =>
    intro s
    exact ⟨[], by simp [resource_offers], by simp [resource_offers, launchedTasks]⟩
  | cons o os ih =>
    intro s
    obtain ⟨p1, hq1, hb1⟩ := processOffer_batch s uri o
    obtain ⟨p2, hq2, hb2⟩ := ih (processOffer s uri o).1
    rw [resource_offers_cons]
    refine ⟨p1 ++ p2, ?_, ?_⟩
    · dsimp only
      rw [List.append_assoc, ← hq2, ← hq1]
    · dsimp only
      rw [launchedTasks_append, List.map_append, hb2, hb1, List.map_map,
        List.map_append]
      have hco : (TaskInfo.task_id ∘ fun p : ℕ × ℕ => build_task o p.1 p.2 uri) =
          taskKey := by
        funext p; rfl
      rw [hco]

theorem run_batch (uri : String) :
    ∀ (es : List Event) (s s2 : ExampleScheduler) (cs : List DriverCall),
      run uri s es = .ok (s2, cs) →
      ∃ pre, s.tasks = pre ++ s2.tasks ∧
        (launchedTasks cs).map TaskInfo.task_id = pre.map taskKey := by
  intro es
  induction es with
  | nil =>
    intro s s2 cs h
    rw [run] at h
    simp only [Except.ok.injEq, Prod.mk.injEq] at h
    obtain ⟨hs, hc⟩ := h
    subst hs
    subst hc
    exact ⟨[], by simp, by simp [launchedTasks]⟩
  | cons e es ih =>
    intro s s2 cs h
    obtain ⟨s1, c1, c2, hstep, hrun, hcs⟩ := run_cons_ok uri s e es s2 cs h
    obtain ⟨p2, hq2, hb2⟩ := ih s1 s2 c2 hrun
    subst hcs
    cases e with
    | offers lst =>
      rw [step] at hstep
      simp only [Except.ok.injEq] at hstep
      obtain ⟨p1, hq1, hb1⟩ := resource_offers_batch uri lst s
      rw [hstep] at hq1 hb1
      refine ⟨p1 ++ p2, ?_, ?_⟩
      · rw [List.append_assoc, ← hq2]
        exact hq1
      · rw [launchedTasks_append, List.map_append, hb1, hb2, List.map_append]
    | status u =>
      rw [step] at hstep
      obtain ⟨htasks, -, -, -⟩ := status_update_ok_inv s u s1 c1 hstep
      have hl := status_update_no_launch s u s1 c1 hstep
      refine ⟨p2, ?_, ?_⟩
      · rw [← htasks]
        exact hq2
      · rw [launchedTasks_append, hl]
        simpa using hb2

/-- Claim C7: across a full run started from the `__main__` queue of
`num_tasks × num_executors` descriptors, the string task ids
`"executorGroup:sequence"` of all tasks ever included in a launch batch
are pairwise distinct (equivalently, the underlying
`(executorGroup, sequence)` keys are distinct). -/
theorem claim_C7_task_id_unique (num_tasks num_executors : ℕ) (uri : String)
    (es : List Event) (s2 : ExampleScheduler) (cs : List DriverCall)
    (h : run uri (ExampleScheduler.init (mainQueue num_tasks num_executors)) es =
      .ok (s2, cs)) :
    ((launchedTasks cs).map TaskInfo.task_id).Nodup := by
  obtain ⟨pre, hq, hb⟩ := run_batch uri es _ s2 cs h
  rw [hb]
  have hq2 : mainQueue num_tasks num_executors = pre ++ s2.tasks := hq
  have hnodup : pre.Nodup := by
    have hmq := mainQueue_nodup num_tasks num_executors
    rw [hq2] at hmq
    exact hmq.of_append_left
  exact List.Nodup.map taskKey_inj hnodup

/-- Witness for C6: a one-task queue against an offer of 1 cpu / 64 mem. -/
theorem claim_C6_witness :
    ((0 : ℚ) ≤ (collectResources [⟨"cpus", 1⟩, ⟨"mem", 64⟩]).1 ∧
      (0 : ℚ) ≤ (collectResources [⟨"cpus", 1⟩, ⟨"mem", 64⟩]).2) ∧
    (batchResourceSum (launchedTasks (processOffer (ExampleScheduler.init [(0, 0)])
          "u" ⟨"o", "s", "f", [⟨"cpus", 1⟩, ⟨"mem", 64⟩]⟩).2) "cpus" ≤
        (collectResources [⟨"cpus", 1⟩, ⟨"mem", 64⟩]).1 ∧
      batchResourceSum (launchedTasks (processOffer (ExampleScheduler.init [(0, 0)])
          "u" ⟨"o", "s", "f", [⟨"cpus", 1⟩, ⟨"mem", 64⟩]⟩).2) "mem" ≤
        (collectResources [⟨"cpus", 1⟩, ⟨"mem", 64⟩]).2) :=
  ⟨⟨by decide, by decide⟩,
    claim_C6_capacity_respect (ExampleScheduler.init [(0, 0)]) "u"
      ⟨"o", "s", "f", [⟨"cpus", 1⟩, ⟨"mem", 64⟩]⟩ (by decide) (by decide)⟩

/-- Witness for C7: a concrete one-offer run launching one task. -/
theorem claim_C7_witness :
    ((launchedTasks [DriverCall.launch_tasks "o"
        [build_task ⟨"o", "s", "f", [⟨"cpus", TASK_CPU⟩, ⟨"mem", TASK_MEM⟩]⟩
          0 0 "u"]]).map TaskInfo.task_id).Nodup :=
  claim_C7_task_id_unique 1 1 "u"
    [.offers [⟨"o", "s", "f", [⟨"cpus", TASK_CPU⟩, ⟨"mem", TASK_MEM⟩]⟩]]
    { tasks := [], terminal := 0, total_tasks := 1 }
    [DriverCall.launch_tasks "o"
      [build_task ⟨"o", "s", "f", [⟨"cpus", TASK_CPU⟩, ⟨"mem", TASK_MEM⟩]⟩ 0 0 "u"]]
    (by
      simp [run, step, resource_offers, processOffer, matchTasks, collectResources,
        mainQueue, ExampleScheduler.init, launchedTasks]
      decide)

end Framework
